import Mathlib

/-!
Verification of the TextToSQL schema-grounded retrieval pipeline.

The development shallowly embeds the program's components:
* `app.py`    — the pre-dispatch safety gate of `main_query_ui`;
* `llm.py`    — provider dispatch of `generate_sql`, the prompt template
  `_build_prompt`, the fence-stripping `_postprocess_sql`, and the
  Hugging-Face response handling of `_generate_sql_hf`;
* `vector_store.py` — `flatten_schema_json`, and the store operations
  `upsert_chunks`, `search`, `clear`.

Python strings are modelled as `List Char`.  Embedding vectors are modelled
over an arbitrary linearly ordered commutative ring, standing for the exact
real arithmetic that the floating-point vectors approximate.
-/

namespace TextToSQL

/-- Python strings, modelled as lists of characters. -/
abbrev PyStr := List Char

/-- Whitespace in the sense of Python's `str.strip()` (ASCII fragment:
space, tab, newline, carriage return, vertical tab, form feed). -/
def pyIsSpace (c : Char) : Bool :=
  c.toNat == 32 || c.toNat == 9 || c.toNat == 10 || c.toNat == 13 ||
    c.toNat == 11 || c.toNat == 12

/-- Python `s.lstrip()`: remove leading whitespace. -/
def pyLStrip (s : PyStr) : PyStr := s.dropWhile pyIsSpace

/-- Python `s.rstrip()`: remove trailing whitespace. -/
def pyRStrip (s : PyStr) : PyStr := (s.reverse.dropWhile pyIsSpace).reverse

/-- Python `s.strip()`: remove leading and trailing whitespace. -/
def pyStrip (s : PyStr) : PyStr := pyRStrip (pyLStrip s)

/-- Python `s.strip(chars)`: remove leading and trailing characters drawn
from the set `chars`. -/
def pyStripChars (chars : PyStr) (s : PyStr) : PyStr :=
  ((s.dropWhile (· ∈ chars)).reverse.dropWhile (· ∈ chars)).reverse

/-- Python `str.lower()` on one character (ASCII fragment, which is all the
program compares: `select`, `sql`, provider names). -/
def pyLowerChar (c : Char) : Char :=
  if 65 ≤ c.toNat ∧ c.toNat ≤ 90 then Char.ofNat (c.toNat + 32) else c

/-- Python `s.lower()` (ASCII fragment). -/
def pyLower (s : PyStr) : PyStr := s.map pyLowerChar

/-- Python `s.startswith(p)`. -/
def pyStartsWith (s p : PyStr) : Bool := p.isPrefixOf s

/-- Worker for `pyReplace`: replace every non-overlapping occurrence of the
non-empty pattern `p0 :: pt` by `rep`, scanning left to right as Python's
`str.replace` does.  The fuel argument makes the recursion structural; the
scan consumes at least one character per step, so fuel `s.length` is always
enough and the fuel-exhausted branch is unreachable from `pyReplace`. -/
def replaceGo (p0 : Char) (pt rep : PyStr) : Nat → PyStr → PyStr
  | _, [] => []
  | 0, s => s
  | fuel + 1, c :: cs =>
    if (p0 :: pt).isPrefixOf (c :: cs) then
      rep ++ replaceGo p0 pt rep fuel (cs.drop pt.length)
    else
      c :: replaceGo p0 pt rep fuel cs

/-- Python `s.replace(pat, rep)`.  The program only ever calls it with the
non-empty patterns `"```sql"` and `"```"`; for an empty pattern this model
returns `s` unchanged. -/
def pyReplace (s pat rep : PyStr) : PyStr :=
  match pat with
  | [] => s
  | p0 :: pt => replaceGo p0 pt rep s.length s

/-- The lowercase token the safety gate of `app.py` looks for. -/
def select_token : PyStr := "select".toList

/-- The pre-dispatch safety gate of `main_query_ui` (`app.py`):
`sql.strip().lower().startswith("select")`.  A generated statement is
executed exactly when this returns `true`; otherwise execution is skipped
with a warning. -/
def is_executable_select (sql : PyStr) : Bool :=
  pyStartsWith (pyLower (pyStrip sql)) select_token

/-- The characters after the first semicolon of `s` (all of `s` is dropped
when it has no semicolon). -/
def afterFirstSemicolon (s : PyStr) : PyStr :=
  (s.dropWhile (fun c => !(c == ';'))).drop 1

/-- Modelled from the spec's words, for comparison with the gate of the
source: a statement is a single statement when nothing but whitespace
follows its first semicolon. -/
def noFurtherStatements (s : PyStr) : Bool :=
  (pyStrip (afterFirstSemicolon s)).isEmpty

/-- Modelled from the spec's words, for comparison with the gate of the
source: a single read-only statement starts (case-insensitively, after
trimming leading whitespace) with `SELECT` and has no further statements. -/
def specSingleReadOnly (s : PyStr) : Bool :=
  pyStartsWith (pyLower (pyLStrip s)) select_token && noFurtherStatements s

/-- The generation backends of `llm.py`. -/
inductive ProviderBackend where
  | groq
  | hf
  | ollama
deriving DecidableEq

/-- Provider dispatch of `LLM.generate_sql` (`llm.py`): `"groq"` and `"hf"`
select their backends, anything else falls through to the Ollama call. -/
def generate_sql_dispatch (provider : PyStr) : ProviderBackend :=
  if provider = "groq".toList then ProviderBackend.groq
  else if provider = "hf".toList then ProviderBackend.hf
  else ProviderBackend.ollama

/-- The provider string configured by `LLM.__init__`:
`os.getenv("LLM_PROVIDER", "ollama").lower()`. -/
def configured_provider (env : Option PyStr) : PyStr :=
  pyLower (env.getD ("ollama".toList))

/-- The triple-backtick fence marker. -/
def fence : PyStr := "```".toList

/-- The fenced language tag pattern `"```sql"`. -/
def fence_sql : PyStr := "```sql".toList

/-- The language tag `"sql"`. -/
def sql_tag : PyStr := "sql".toList

/-- The leading-fence branch of `_postprocess_sql`: when the stripped text
starts with a triple backtick, strip backticks from both ends and drop a
leading (case-insensitive) `sql` language tag. -/
def stripLeadingFence (t : PyStr) : PyStr :=
  if pyStartsWith t fence then
    let t := pyStripChars ("`".toList) t
    if pyStartsWith (pyLower t) sql_tag then t.drop 3 else t
  else t

/-- `LLM._postprocess_sql` (`llm.py`): strip whitespace, strip a leading
fence (with optional `sql` tag), and remove any remaining fence markers. -/
def postprocess_sql (text : PyStr) : PyStr :=
  if text = [] then []
  else
    pyStrip
      (pyReplace (pyReplace (stripLeadingFence (pyStrip text)) fence_sql [])
        fence [])

/-- `LLM._build_prompt` (`llm.py`): the deterministic prompt template. -/
def build_prompt (question : PyStr) (schema_context : List PyStr) : PyStr :=
  let context := List.intercalate ("\n".toList) schema_context
  ("You are a helpful assistant that writes syntactically correct PostgreSQL SQL based on the provided database schema.\n".toList)
  ++ ("- Use only tables, columns, and relations that appear in the context.\n".toList)
  ++ ("- Prefer simple SELECTs. If ambiguous, make reasonable assumptions.\n".toList)
  ++ ("- Return ONLY the SQL query. Do not include explanations or markdown fences.\n\n".toList)
  ++ ("Schema Context:\n".toList) ++ context ++ ("\n\n".toList)
  ++ ("User Question: ".toList) ++ question ++ ("\n\n".toList)
  ++ ("SQL:".toList)

/-- A JSON dictionary with string values, as far as the Hugging-Face
response handling inspects it. -/
abbrev HfDict := List (String × PyStr)

/-- The parsed JSON payload shapes `_generate_sql_hf` distinguishes with
`isinstance`: a list of dictionaries, a dictionary, or anything else. -/
inductive HfJson where
  | arr (items : List HfDict)
  | obj (fields : HfDict)
  | other
deriving DecidableEq

/-- Python `d.get(key, default)` on a string-valued dictionary. -/
def dictGet (d : HfDict) (key : String) (dflt : PyStr) : PyStr :=
  match d.find? (fun kv => kv.1 = key) with
  | some kv => kv.2
  | none => dflt

/-- Python `key in d`. -/
def dictContains (d : HfDict) (key : String) : Bool :=
  d.any (fun kv => kv.1 = key)

/-- Python `a or b` on strings: the empty string is falsy. -/
def pyOrStr (a b : PyStr) : PyStr := if a = [] then b else a

/-- A single quote character, for Python `repr` of strings. -/
def squote : Char := Char.ofNat 39

/-- Left curly brace, for Python `repr` of dictionaries. -/
def lbrace : Char := Char.ofNat 123

/-- Right curly brace, for Python `repr` of dictionaries. -/
def rbrace : Char := Char.ofNat 125

/-- Python `repr` of a string (as it appears inside `str(data)`). -/
def pyReprStr (s : PyStr) : PyStr := squote :: (s ++ [squote])

/-- Python `str` of a string-valued dictionary. -/
def pyReprDict (d : HfDict) : PyStr :=
  lbrace :: (List.intercalate (", ".toList)
    (d.map (fun kv => pyReprStr kv.1.toList ++ (": ".toList) ++ pyReprStr kv.2))
    ++ [rbrace])

/-- Python `str(data)` for the payload shapes of `HfJson` (the code only
stringifies the list shape; the other shapes are given for totality). -/
def pyStrHfJson : HfJson → PyStr
  | HfJson.arr items =>
      '[' :: (List.intercalate (", ".toList) (items.map pyReprDict) ++ [']'])
  | HfJson.obj fields => pyReprDict fields
  | HfJson.other => []

/-- The response-field extraction of `_generate_sql_hf` (`llm.py`): probe
`generated_text` / `summary_text` on a list payload, `generated_text` on a
dictionary payload, and fall back to `str(data)` for a non-empty list whose
first element lacks `generated_text`. -/
def hfExtractText (data : HfJson) : PyStr :=
  let text :=
    match data with
    | HfJson.arr (d0 :: _) =>
        pyOrStr (dictGet d0 ("generated_text") [])
          (pyOrStr (dictGet d0 ("summary_text") []) [])
    | HfJson.arr [] => []
    | HfJson.obj fields => dictGet fields ("generated_text") []
    | HfJson.other => []
  match data with
  | HfJson.arr (d0 :: _) =>
      if text = [] ∧ ¬ dictContains d0 ("generated_text") then
        pyStrHfJson data
      else text
  | _ => text

/-- Failures `_generate_sql_hf` can raise: `resp.raise_for_status()` on an
HTTP error status, or `resp.json()` on an unparseable body. -/
inductive HfFailure where
  | httpError (status : Nat)
  | invalidJson
deriving DecidableEq

/-- `LLM._generate_sql_hf` (`llm.py`), abstracted over the HTTP exchange:
given the response status and the parsed JSON body (`none` when the body is
not JSON), produce the post-processed SQL text or raise.  `raise_for_status`
raises exactly for statuses in 400..599. -/
def generate_sql_hf (status : Nat) (body : Option HfJson) :
    Except HfFailure PyStr :=
  if 400 ≤ status then Except.error (HfFailure.httpError status)
  else
    match body with
    | none => Except.error HfFailure.invalidJson
    | some data => Except.ok (postprocess_sql (hfExtractText data))

/-- A column record of the schema JSON, as `flatten_schema_json`
(`vector_store.py`) reads it: `column_name` and `data_type` are accessed by
subscript (required), the remaining fields by `.get` (optional, rendered as
Python's `None` when absent). -/
structure SchemaColumn where
  column_name : String
  data_type : String
  is_nullable : Option String
  column_default : Option String
  description : Option String
deriving DecidableEq

/-- A table record of the schema JSON: `table_schema` is read with
`.get("table_schema", "public")`, `table_name` by `.get`, `columns` with
`.get("columns", [])`. -/
structure SchemaTable where
  table_schema : Option String
  table_name : String
  columns : List SchemaColumn
deriving DecidableEq

/-- The `kind` tag of a chunk's metadata. -/
inductive ChunkKind where
  | table
  | column
deriving DecidableEq

/-- The metadata dictionary attached to a chunk (`column` is present only on
column chunks). -/
structure ChunkMeta where
  kind : ChunkKind
  schema : String
  table : String
  column : Option String
deriving DecidableEq

/-- One `(source, chunk, metadata)` row produced by `flatten_schema_json`. -/
structure Chunk where
  source : String
  text : String
  meta : ChunkMeta
deriving DecidableEq

/-- Python `f"{x}"` for an optional string: `None` renders as `"None"`. -/
def pyShowOpt : Option String → String
  | none => "None"
  | some s => s

/-- The `f"{schema}.{table_name}"` source tag of a table. -/
def tableSource (t : SchemaTable) : String :=
  t.table_schema.getD "public" ++ "." ++ t.table_name

/-- The table-summary chunk `flatten_schema_json` emits for a table. -/
def tableChunk (t : SchemaTable) : Chunk :=
  { source := tableSource t
    text := "Table " ++ tableSource t ++ ". Columns: " ++
      String.intercalate ", " (t.columns.map (fun c => c.column_name))
    meta :=
      { kind := ChunkKind.table
        schema := t.table_schema.getD "public"
        table := t.table_name
        column := none } }

/-- The per-column chunk `flatten_schema_json` emits. -/
def columnChunk (t : SchemaTable) (c : SchemaColumn) : Chunk :=
  { source := tableSource t
    text := "Column " ++ t.table_schema.getD "public" ++ "." ++ t.table_name
      ++ "." ++ c.column_name ++ " type " ++ c.data_type
      ++ " nullable=" ++ pyShowOpt c.is_nullable
      ++ " default=" ++ pyShowOpt c.column_default
      ++ " desc=" ++ pyShowOpt c.description
    meta :=
      { kind := ChunkKind.column
        schema := t.table_schema.getD "public"
        table := t.table_name
        column := some c.column_name } }

/-- `flatten_schema_json` (`vector_store.py`): the loop appends, per table,
one table-summary chunk and then one chunk per column. -/
def flatten_schema_json (schema_json : List SchemaTable) : List Chunk :=
  schema_json.foldl
    (fun rows t => rows ++ (tableChunk t :: t.columns.map (columnChunk t)))
    []

/-- The total number of columns across a schema JSON. -/
def totalColumnCount (schema_json : List SchemaTable) : Nat :=
  (schema_json.map (fun t => t.columns.length)).sum

/-- A persisted row of the `schema_chunks` table: `id BIGSERIAL`, source,
chunk text, metadata, embedding vector. -/
structure EmbRecord (K : Type) where
  id : Nat
  source : String
  chunk : String
  metadata : ChunkMeta
  embedding : List K

/-- The persisted state of the vector store: the rows of `schema_chunks`
plus the sequence backing the `BIGSERIAL` id column. -/
structure StoreState (K : Type) where
  records : List (EmbRecord K)
  nextId : Nat

/-- A search hit as `VectorStore.search` returns it. -/
structure RetrievalHit (K : Type) where
  source : String
  chunk : String
  metadata : ChunkMeta
  score : K

/-- Dot product of two vectors (componentwise, truncating at the shorter). -/
def dot {K : Type} [LinearOrderedCommRing K] (a b : List K) : K :=
  (List.zipWith (· * ·) a b).sum

/-- Squared norm of a vector. -/
def normSq {K : Type} [LinearOrderedCommRing K] (a : List K) : K := dot a a

/-- Squared Euclidean distance: the pgvector `<->` operator orders rows by
Euclidean distance, and ordering by the distance coincides with ordering by
its square. -/
def l2sq {K : Type} [LinearOrderedCommRing K] (a b : List K) : K :=
  ((List.zipWith (· - ·) a b).map (fun x => x * x)).sum

/-- The pgvector `<=>` cosine distance `1 - dot a b / (‖a‖ * ‖b‖)`,
specialised to the unit-norm vectors the store holds (the model encodes with
`normalize_embeddings=True`, so both norms are `1`). -/
def cos_distance_unit {K : Type} [LinearOrderedCommRing K] (a b : List K) :
    K :=
  1 - dot a b

/-- One result row of `VectorStore.search`: the reported score is
`1 - (embedding <=> query)`. -/
def hit_of_record {K : Type} [LinearOrderedCommRing K] (qEmb : List K)
    (r : EmbRecord K) : RetrievalHit K :=
  { source := r.source
    chunk := r.chunk
    metadata := r.metadata
    score := 1 - cos_distance_unit r.embedding qEmb }

/-- `VectorStore.search` (`vector_store.py`): order all rows by
`embedding <-> query` ascending, keep at most `k`, and report each with the
score `1 - (embedding <=> query)`. -/
def search {K : Type} [LinearOrderedCommRing K] (st : StoreState K)
    (qEmb : List K) (k : Nat) : List (RetrievalHit K) :=
  let sorted := st.records.insertionSort
    (fun r1 r2 => l2sq r1.embedding qEmb ≤ l2sq r2.embedding qEmb)
  (sorted.take k).map (hit_of_record qEmb)

/-- `VectorStore.search` applied to a query string: the query is embedded
with the store's embedding function and passed to the ranking query. -/
def search_query {K : Type} [LinearOrderedCommRing K]
    (embed : String → List K) (st : StoreState K) (query : String) (k : Nat) :
    List (RetrievalHit K) :=
  search st (embed query) k

/-- `VectorStore.clear` (`vector_store.py`): `TRUNCATE schema_chunks`
removes every row (the id sequence is not restarted). -/
def clear {K : Type} (st : StoreState K) : StoreState K :=
  { st with records := [] }

/-- `VectorStore.upsert_chunks` (`vector_store.py`), abstracted over the
embedding model.  Returns the new store state, the count the method returns,
and the number of database connections it opened.  An empty input returns
`0` before any connection is made. -/
def upsert_chunks {K : Type} [LinearOrderedCommRing K]
    (embed : String → List K) (st : StoreState K) (rows : List Chunk) :
    StoreState K × Nat × Nat :=
  if rows = [] then (st, 0, 0)
  else
    let texts := rows.map (fun r => r.text)
    let embeddings := texts.map embed
    let values := rows.zip embeddings
    let newRecords := values.enum.map (fun p =>
      { id := st.nextId + p.1
        source := p.2.1.source
        chunk := p.2.1.text
        metadata := p.2.1.meta
        embedding := p.2.2 : EmbRecord K })
    ({ records := st.records ++ newRecords
       nextId := st.nextId + newRecords.length },
     values.length, 1)

/-! ### Helper lemmas on the Python string primitives -/

theorem dropWhile_idem {α : Type} {p : α → Bool} :
    ∀ l : List α, (l.dropWhile p).dropWhile p = l.dropWhile p
  | [] => rfl
  | x :: xs => by
    by_cases h : p x = true
    · rw [List.dropWhile_cons, if_pos h, dropWhile_idem xs]
    · rw [List.dropWhile_cons, if_neg h, List.dropWhile_cons, if_neg h]

theorem head_dropWhile {α : Type} {p : α → Bool} :
    ∀ {l : List α} {c : α}, (l.dropWhile p).head? = some c → p c = false
  | [], c => by simp
  | x :: xs, c => by
    by_cases h : p x = true
    · rw [List.dropWhile_cons, if_pos h]
      exact head_dropWhile
    · rw [List.dropWhile_cons, if_neg h]
      intro he
      obtain rfl : x = c := by simpa using he
      simpa using h

/-- The trailing segment `pyRStrip` removes is all whitespace. -/
theorem rstrip_decomp (m : PyStr) :
    ∃ w, m = pyRStrip m ++ w ∧ ∀ c ∈ w, pyIsSpace c = true := by
  refine ⟨(m.reverse.takeWhile pyIsSpace).reverse, ?_, ?_⟩
  · conv_lhs => rw [← m.reverse_reverse,
      ← List.takeWhile_append_dropWhile (p := pyIsSpace) (l := m.reverse),
      List.reverse_append]
    rfl
  · intro c hc
    rw [List.mem_reverse] at hc
    exact List.mem_takeWhile_imp hc

theorem rstrip_isPrefix (m : PyStr) : pyRStrip m <+: m := by
  obtain ⟨w, hm, -⟩ := rstrip_decomp m
  exact ⟨w, hm.symm⟩

theorem pyStrip_isInfix (s : PyStr) : pyStrip s <:+: s := by
  have h1 : pyRStrip (pyLStrip s) <+: pyLStrip s := rstrip_isPrefix _
  have h2 : pyLStrip s <:+ s := List.dropWhile_suffix _
  exact h1.isInfix.trans h2.isInfix

theorem head_pyLStrip {s : PyStr} {c : Char} (h : (pyLStrip s).head? = some c) :
    pyIsSpace c = false :=
  head_dropWhile h

theorem head_pyRStrip {m : PyStr} {c : Char} (h : (pyRStrip m).head? = some c) :
    m.head? = some c := by
  obtain ⟨w, hm, -⟩ := rstrip_decomp m
  rw [hm, List.head?_append, h]
  rfl

theorem head_pyStrip {s : PyStr} {c : Char} (h : (pyStrip s).head? = some c) :
    pyIsSpace c = false :=
  head_pyLStrip (head_pyRStrip h)

theorem getLast_pyRStrip {m : PyStr} {c : Char}
    (h : (pyRStrip m).getLast? = some c) : pyIsSpace c = false := by
  rw [pyRStrip, List.getLast?_reverse] at h
  exact head_dropWhile h

theorem getLast_pyStrip {s : PyStr} {c : Char}
    (h : (pyStrip s).getLast? = some c) : pyIsSpace c = false :=
  getLast_pyRStrip h

theorem lstrip_eq_self_of_head {m : PyStr}
    (h : ∀ c, m.head? = some c → pyIsSpace c = false) : pyLStrip m = m := by
  cases m with
  | nil => rfl
  | cons c cs =>
    have hc := h c rfl
    rw [pyLStrip, List.dropWhile_cons, if_neg (by simp [hc])]

theorem pyRStrip_idem (m : PyStr) : pyRStrip (pyRStrip m) = pyRStrip m := by
  rw [pyRStrip, pyRStrip, List.reverse_reverse, dropWhile_idem]

theorem pyStrip_idem (s : PyStr) : pyStrip (pyStrip s) = pyStrip s := by
  show pyRStrip (pyLStrip (pyRStrip (pyLStrip s))) = pyRStrip (pyLStrip s)
  have h1 : pyLStrip (pyRStrip (pyLStrip s)) = pyRStrip (pyLStrip s) := by
    apply lstrip_eq_self_of_head
    intro c hc
    exact head_pyLStrip (head_pyRStrip hc)
  rw [h1, pyRStrip_idem]

/-- Lowercasing fixes whitespace characters. -/
theorem pyLowerChar_ws {c : Char} (h : pyIsSpace c = true) :
    pyLowerChar c = c := by
  have hn : ¬ (65 ≤ c.toNat ∧ c.toNat ≤ 90) := by
    simp only [pyIsSpace, Bool.or_eq_true, beq_iff_eq] at h
    omega
  rw [pyLowerChar, if_neg hn]

/-- A list of non-whitespace characters is a prefix of `A ++ w` for
all-whitespace `w` exactly when it is a prefix of `A`. -/
theorem isPrefix_append_ws (w : PyStr) (hw : ∀ c ∈ w, pyIsSpace c = true) :
    ∀ (p A : PyStr), (∀ c ∈ p, pyIsSpace c = false) →
      (p <+: A ++ w ↔ p <+: A)
  | [], A, _ => by simp
  | x :: xs, [], hp => by
    constructor
    · intro h
      exfalso
      cases w with
      | nil => simp at h
      | cons c cs =>
        rw [List.nil_append] at h
        obtain ⟨rfl, -⟩ := List.cons_prefix_cons.1 h
        have h1 := hw x (by simp)
        have h2 := hp x (by simp)
        rw [h1] at h2
        exact Bool.true_eq_false.mp h2
    · intro h
      simp at h
  | x :: xs, a :: as, hp => by
    have ih := isPrefix_append_ws w hw xs as
      (fun c hc => hp c (List.mem_cons_of_mem _ hc))
    rw [List.cons_append, List.cons_prefix_cons, List.cons_prefix_cons]
    exact ⟨fun h => ⟨h.1, ih.1 h.2⟩, fun h => ⟨h.1, ih.2 h.2⟩⟩

/-- The safety gate's `strip()` can be weakened to a leading-whitespace trim:
a `select` prefix check is unaffected by trailing-whitespace removal. -/
theorem strip_lower_select_iff (s : PyStr) :
    select_token <+: pyLower (pyStrip s) ↔
      select_token <+: pyLower (pyLStrip s) := by
  obtain ⟨w, hm, hw⟩ := rstrip_decomp (pyLStrip s)
  have hw' : ∀ c ∈ pyLower w, pyIsSpace c = true := by
    intro c hc
    rw [pyLower, List.mem_map] at hc
    obtain ⟨d, hd, rfl⟩ := hc
    rw [pyLowerChar_ws (hw d hd)]
    exact hw d hd
  have hsel : ∀ c ∈ select_token, pyIsSpace c = false := by decide
  have hmap : pyLower (pyLStrip s) = pyLower (pyStrip s) ++ pyLower w := by
    conv_lhs => rw [hm]
    rw [pyLower, pyLower, pyLower, List.map_append]
    rfl
  rw [hmap]
  exact (isPrefix_append_ws (pyLower w) hw' select_token
    (pyLower (pyStrip s)) hsel).symm

/-! ### Helper lemmas on fence removal -/

/-- The backtick character. -/
def btick : Char := Char.ofNat 96

theorem fence_eq : fence = [btick, btick, btick] := by decide

/-- The fence scanner specialised to pattern `"```"` and empty replacement,
as `pyReplace · fence []` runs it. -/
def goBt (fuel : Nat) (s : PyStr) : PyStr :=
  replaceGo btick [btick, btick] [] fuel s

theorem replaceGo_nil {p0 : Char} {pt rep : PyStr} (fuel : Nat) :
    replaceGo p0 pt rep fuel [] = [] := by
  cases fuel <;> rfl

theorem replaceGo_zero {p0 : Char} {pt rep : PyStr} (s : PyStr) :
    replaceGo p0 pt rep 0 s = s := by
  cases s <;> rfl

theorem replaceGo_succ {p0 : Char} {pt rep : PyStr} (fuel : Nat) (c : Char)
    (cs : PyStr) :
    replaceGo p0 pt rep (fuel + 1) (c :: cs) =
      if (p0 :: pt).isPrefixOf (c :: cs) then
        rep ++ replaceGo p0 pt rep fuel (cs.drop pt.length)
      else
        c :: replaceGo p0 pt rep fuel cs := rfl

theorem replaceGo_eq_self {p0 : Char} {pt rep : PyStr} :
    ∀ (fuel : Nat) {s : PyStr}, ¬ ((p0 :: pt) <:+: s) →
      replaceGo p0 pt rep fuel s = s := by
  intro fuel
  induction fuel with
  | zero => intro s _; exact replaceGo_zero s
  | succ fuel ih =>
    intro s h
    cases s with
    | nil => exact replaceGo_nil _
    | cons c cs =>
      have hpre : ¬ ((p0 :: pt) <+: (c :: cs)) := fun hp => h hp.isInfix
      have hcs : ¬ ((p0 :: pt) <:+: cs) := fun hi => h (List.infix_cons hi)
      rw [replaceGo_succ,
        if_neg (by simpa [ List.isPrefixOf_iff_prefix] using hpre), ih hcs]

/-- Python `replace` leaves a string without an occurrence unchanged. -/
theorem pyReplace_not_occurs {s pat rep : PyStr} (h : ¬ (pat <:+: s)) :
    pyReplace s pat rep = s := by
  cases pat with
  | nil => rfl
  | cons p0 pt => exact replaceGo_eq_self s.length h

theorem pyReplace_fence_eq_goBt (X : PyStr) :
    pyReplace X fence [] = goBt X.length X := by
  rw [fence_eq]
  rfl

theorem goBt_head (fuel : Nat) {e : Char} (he : e ≠ btick) (es : PyStr) :
    (goBt fuel (e :: es)).head? = some e := by
  cases fuel with
  | zero => rfl
  | succ fuel =>
    have hne : ¬ ((btick :: [btick, btick]).isPrefixOf (e :: es) = true) := by
      simp only [ List.isPrefixOf_iff_prefix, List.cons_prefix_cons]
      rintro ⟨h, -⟩
      exact he h.symm
    rw [goBt, replaceGo_succ, if_neg hne]
    rfl

theorem goBt_no_two (fuel : Nat) {cs : PyStr} (h : ¬ ([btick, btick] <+: cs)) :
    ¬ ([btick, btick] <+: goBt fuel cs) := by
  cases fuel with
  | zero => rw [goBt, replaceGo_zero]; exact h
  | succ fuel =>
    cases cs with
    | nil => rw [goBt, replaceGo_nil]; simp
    | cons d ds =>
      by_cases hd : d = btick
      · subst hd
        have hds : ¬ ([btick] <+: ds) := fun hb =>
          h (List.cons_prefix_cons.2 ⟨rfl, hb⟩)
        have hnf : ¬ ((btick :: [btick, btick]).isPrefixOf
            (btick :: ds) = true) := by
          simp only [ List.isPrefixOf_iff_prefix, List.cons_prefix_cons]
          rintro ⟨-, h2⟩
          exact hds (List.IsPrefix.trans ⟨[btick], rfl⟩ h2)
        have step : goBt (fuel + 1) (btick :: ds) = btick :: goBt fuel ds := by
          rw [goBt, replaceGo_succ, if_neg hnf]
          rfl
        rw [step]
        intro hx
        obtain ⟨-, h1⟩ := List.cons_prefix_cons.1 hx
        cases ds with
        | nil =>
          rw [goBt, replaceGo_nil] at h1
          simp at h1
        | cons e es =>
          have he : e ≠ btick := fun hh =>
            hds (List.cons_prefix_cons.2 ⟨hh.symm, List.nil_prefix⟩)
          have hh := goBt_head fuel he es
          obtain ⟨t, ht⟩ := h1
          rw [← ht] at hh
          simp at hh
          exact he hh.symm
      · have hne : ¬ ((btick :: [btick, btick]).isPrefixOf (d :: ds) = true) := by
          simp only [ List.isPrefixOf_iff_prefix, List.cons_prefix_cons]
          rintro ⟨h1, -⟩
          exact hd h1.symm
        have step : goBt (fuel + 1) (d :: ds) = d :: goBt fuel ds := by
          rw [goBt, replaceGo_succ, if_neg hne]
          rfl
        rw [step]
        intro hx
        exact hd (List.cons_prefix_cons.1 hx).1.symm


theorem goBt_no_fence :
    ∀ (fuel : Nat) (s : PyStr), s.length ≤ fuel →
      ¬ ([btick, btick, btick] <:+: goBt fuel s) := by
  intro fuel
  induction fuel with
  | zero =>
    intro s hs
    obtain rfl : s = [] := List.length_eq_zero.1 (Nat.le_zero.1 hs)
    rw [goBt, replaceGo_nil]
    simp
  | succ fuel ih =>
    intro s hs
    cases s with
    | nil =>
      rw [goBt, replaceGo_nil]
      simp
    | cons c cs =>
      have hcsle : cs.length ≤ fuel := by
        simpa using hs
      by_cases hp : (btick :: [btick, btick]).isPrefixOf (c :: cs) = true
      · have step : goBt (fuel + 1) (c :: cs) = goBt fuel (cs.drop 2) := by
          rw [goBt, replaceGo_succ, if_pos hp]
          rfl
        rw [step]
        apply ih
        have := List.length_drop 2 cs
        omega
      · have step : goBt (fuel + 1) (c :: cs) = c :: goBt fuel cs := by
          rw [goBt, replaceGo_succ, if_neg hp]
          rfl
        rw [step]
        intro hx
        rcases List.infix_cons_iff.1 hx with h1 | h2
        · obtain ⟨hbc, h12⟩ := List.cons_prefix_cons.1 h1
          have hnp : ¬ ((btick :: [btick, btick]) <+: (c :: cs)) := by
            simpa [ List.isPrefixOf_iff_prefix] using hp
          have hcs : ¬ ([btick, btick] <+: cs) := fun hh =>
            hnp (List.cons_prefix_cons.2 ⟨hbc, hh⟩)
          exact goBt_no_two fuel hcs h12
        · exact ih cs hcsle h2

/-- After `replace("```", "")` no fence marker remains. -/
theorem pyReplace_fence_no_fence (X : PyStr) :
    ¬ (fence <:+: pyReplace X fence []) := by
  rw [pyReplace_fence_eq_goBt]
  rw [fence_eq]
  exact goBt_no_fence X.length X le_rfl

theorem postprocess_ne_nil_eq (t : PyStr) (ht : t ≠ []) :
    postprocess_sql t =
      pyStrip
        (pyReplace (pyReplace (stripLeadingFence (pyStrip t)) fence_sql [])
          fence []) := by
  rw [postprocess_sql, if_neg ht]

theorem postprocess_no_fence (t : PyStr) : ¬ (fence <:+: postprocess_sql t) := by
  by_cases ht : t = []
  · subst ht
    intro h
    rw [show postprocess_sql [] = [] from rfl] at h
    rw [fence_eq] at h
    simp at h
  · rw [postprocess_ne_nil_eq t ht]
    intro h
    exact pyReplace_fence_no_fence _ (h.trans (pyStrip_isInfix _))

theorem postprocess_head {t : PyStr} {c : Char}
    (h : (postprocess_sql t).head? = some c) : pyIsSpace c = false := by
  by_cases ht : t = []
  · subst ht
    rw [show postprocess_sql [] = [] from rfl] at h
    simp at h
  · rw [postprocess_ne_nil_eq t ht] at h
    exact head_pyStrip h

theorem postprocess_getLast {t : PyStr} {c : Char}
    (h : (postprocess_sql t).getLast? = some c) : pyIsSpace c = false := by
  by_cases ht : t = []
  · subst ht
    rw [show postprocess_sql [] = [] from rfl] at h
    simp at h
  · rw [postprocess_ne_nil_eq t ht] at h
    exact getLast_pyStrip h

/-- On fence-free text the post-processing collapses to a plain strip. -/
theorem postprocess_eq_strip_of_no_fence {t : PyStr} (hf : ¬ (fence <:+: t)) :
    postprocess_sql t = pyStrip t := by
  by_cases ht : t = []
  · subst ht
    rfl
  · rw [postprocess_ne_nil_eq t ht]
    have h1 : ¬ (fence <:+: pyStrip t) := fun h => hf (h.trans (pyStrip_isInfix t))
    have h2 : stripLeadingFence (pyStrip t) = pyStrip t := by
      have hns : ¬ (pyStartsWith (pyStrip t) fence = true) := by
        rw [pyStartsWith]
        simp only [ List.isPrefixOf_iff_prefix]
        exact fun hp => h1 hp.isInfix
      rw [stripLeadingFence, if_neg hns]
    have hpre : fence <+: fence_sql := by decide
    have h3 : ¬ (fence_sql <:+: pyStrip t) := fun h =>
      h1 (hpre.isInfix.trans h)
    rw [h2, pyReplace_not_occurs h3, pyReplace_not_occurs h1, pyStrip_idem]

/-! ### Helper lemmas on `flatten_schema_json` -/

theorem foldl_append_flatMap {α β : Type} (f : α → List β) :
    ∀ (l : List α) (init : List β),
      l.foldl (fun acc t => acc ++ f t) init = init ++ l.flatMap f
  | [], init => by simp
  | t :: ts, init => by
    rw [List.foldl_cons, foldl_append_flatMap f ts, List.flatMap_cons,
      List.append_assoc]

/-! ### Claim theorems -/

/-- C1 (counterexample): on a schema of two zero-column tables,
`flatten_schema_json` produces two chunks, not the `1 + total_column_count
= 1` chunks the claim predicts for every valid sequence. -/
theorem flatten_count_counterexample :
    ¬ ((flatten_schema_json
          [{ table_schema := some ("public"), table_name := "a", columns := [] },
           { table_schema := some ("public"), table_name := "b", columns := [] }]).length
        = 1 + totalColumnCount
          [{ table_schema := some ("public"), table_name := "a", columns := [] },
           { table_schema := some ("public"), table_name := "b", columns := [] }]) := by
  decide

/-- C1 (amended): for every valid sequence of SchemaTable records,
`flatten_schema_json` produces exactly `table_count + total_column_count`
chunks (per table, `1 +` that table's column count), with tables in input
order and, within each table, the table-chunk preceding its column-chunks
in column order. -/
theorem flatten_schema_json_shape (ts : List SchemaTable) :
    flatten_schema_json ts
      = ts.flatMap (fun t => tableChunk t :: t.columns.map (columnChunk t))
    ∧ (flatten_schema_json ts).length = ts.length + totalColumnCount ts := by
  have hflat : flatten_schema_json ts
      = ts.flatMap (fun t => tableChunk t :: t.columns.map (columnChunk t)) := by
    rw [flatten_schema_json, foldl_append_flatMap, List.nil_append]
  refine ⟨hflat, ?_⟩
  rw [hflat]
  clear hflat
  induction ts with
  | nil => rfl
  | cons t ts ih =>
    rw [List.flatMap_cons, List.length_append, ih]
    simp only [List.length_cons, List.length_map, totalColumnCount,
      List.map_cons, List.sum_cons]
    omega

/-- C5: `upsert_chunks` returns exactly the number of chunks ingested; on
the empty input it returns `0`, opens no connection, and leaves the store
state unchanged. -/
theorem upsert_chunks_count {K : Type} [LinearOrderedCommRing K]
    (embed : String → List K) (st : StoreState K) (rows : List Chunk) :
    (upsert_chunks embed st rows).2.1 = rows.length
    ∧ (rows = [] →
        (upsert_chunks embed st rows).1 = st
        ∧ (upsert_chunks embed st rows).2.2 = 0) := by
  constructor
  · by_cases h : rows = []
    · subst h
      rfl
    · rw [upsert_chunks, if_neg h]
      simp [List.length_zip]
  · intro h
    subst h
    exact ⟨rfl, rfl⟩

/-- C5 witness: the empty ingest over `ℤ`-valued embeddings. -/
theorem upsert_chunks_count_witness :
    (upsert_chunks (K := ℤ) (fun _ => []) ⟨[], 1⟩ []).2.1 = 0
    ∧ (upsert_chunks (K := ℤ) (fun _ => []) ⟨[], 1⟩ []).1 = ⟨[], 1⟩
    ∧ (upsert_chunks (K := ℤ) (fun _ => []) ⟨[], 1⟩ []).2.2 = 0 := by
  have h := upsert_chunks_count (K := ℤ) (fun _ => []) ⟨[], 1⟩ []
  exact ⟨h.1, (h.2 rfl).1, (h.2 rfl).2⟩

/-- C6: for every query and every `k > 0`, `search` on an empty store
returns the empty sequence (it is a total function, so no error is
possible); in particular `clear()` followed by `search` returns the empty
sequence. -/
theorem search_empty_store {K : Type} [LinearOrderedCommRing K]
    (embed : String → List K) (st : StoreState K) (query : String) (k : Nat)
    (hk : 0 < k) :
    search_query embed (clear st) query k = []
    ∧ (st.records = [] → search_query embed st query k = []) := by
  have h0 : ∀ nid : Nat, search_query embed ⟨[], nid⟩ query k = [] := by
    intro nid
    simp [search_query, search, List.insertionSort]
  refine ⟨h0 st.nextId, ?_⟩
  obtain ⟨recs, nid⟩ := st
  intro h
  simp only at h
  subst h
  exact h0 nid

/-- C6 witness: clearing a one-record `ℤ` store then searching returns
nothing. -/
theorem search_empty_store_witness :
    search_query (K := ℤ) (fun _ => [1])
      (clear ⟨[{ id := 1, source := "s", chunk := "c",
                 metadata := { kind := ChunkKind.table, schema := "p",
                               table := "t", column := none },
                 embedding := [1] }], 2⟩) "q" 3 = [] :=
  (search_empty_store (K := ℤ) (fun _ => [1]) _ "q" 3 (by decide)).1

set_option maxRecDepth 8000 in
/-- C8: the composed prompt consists of a header carrying the three
instructions (context-only entities, prefer simple SELECTs, return only the
query without fences), followed by the context chunks joined by newlines in
their given order, followed by the question. -/
theorem build_prompt_structure (question : PyStr)
    (schema_context : List PyStr) :
    ∃ pre mid post : PyStr,
      build_prompt question schema_context
        = pre ++ List.intercalate ("\n".toList) schema_context
            ++ mid ++ question ++ post
      ∧ ("Use only tables, columns, and relations that appear in the context.".toList) <:+: pre
      ∧ ("Prefer simple SELECTs.".toList) <:+: pre
      ∧ ("Return ONLY the SQL query. Do not include explanations or markdown fences.".toList) <:+: pre := by
  refine
    ⟨("You are a helpful assistant that writes syntactically correct PostgreSQL SQL based on the provided database schema.\n".toList)
        ++ ("- Use only tables, columns, and relations that appear in the context.\n".toList)
        ++ ("- Prefer simple SELECTs. If ambiguous, make reasonable assumptions.\n".toList)
        ++ ("- Return ONLY the SQL query. Do not include explanations or markdown fences.\n\n".toList)
        ++ ("Schema Context:\n".toList),
      ("\n\nUser Question: ".toList), ("\n\nSQL:".toList), ?_, ?_, ?_, ?_⟩
  · rw [build_prompt]
    simp only [List.append_assoc]
    rfl
  · exact
      ⟨("You are a helpful assistant that writes syntactically correct PostgreSQL SQL based on the provided database schema.\n- ".toList),
       ("\n- Prefer simple SELECTs. If ambiguous, make reasonable assumptions.\n- Return ONLY the SQL query. Do not include explanations or markdown fences.\n\nSchema Context:\n".toList),
       by decide⟩
  · exact
      ⟨("You are a helpful assistant that writes syntactically correct PostgreSQL SQL based on the provided database schema.\n- Use only tables, columns, and relations that appear in the context.\n- ".toList),
       (" If ambiguous, make reasonable assumptions.\n- Return ONLY the SQL query. Do not include explanations or markdown fences.\n\nSchema Context:\n".toList),
       by decide⟩
  · exact
      ⟨("You are a helpful assistant that writes syntactically correct PostgreSQL SQL based on the provided database schema.\n- Use only tables, columns, and relations that appear in the context.\n- Prefer simple SELECTs. If ambiguous, make reasonable assumptions.\n- ".toList),
       ("\n\nSchema Context:\n".toList),
       by decide⟩

/-- C10: `generate_sql` dispatches on the configured provider string:
`"groq"` selects the Groq backend, `"hf"` the Hugging Face backend, and
every other value falls back to the Ollama backend rather than failing. -/
theorem generate_sql_dispatch_spec :
    generate_sql_dispatch ("groq".toList) = ProviderBackend.groq
    ∧ generate_sql_dispatch ("hf".toList) = ProviderBackend.hf
    ∧ ∀ p : PyStr, p ≠ "groq".toList → p ≠ "hf".toList →
        generate_sql_dispatch p = ProviderBackend.ollama := by
  refine ⟨rfl, rfl, ?_⟩
  intro p h1 h2
  rw [generate_sql_dispatch, if_neg h1, if_neg h2]

/-- C10 witness: a misspelled provider falls back to Ollama. -/
theorem generate_sql_dispatch_spec_witness :
    generate_sql_dispatch ("mistral".toList) = ProviderBackend.ollama :=
  generate_sql_dispatch_spec.2.2 ("mistral".toList) (by decide) (by decide)

/-- C2 (counterexample): the gate of `app.py` classifies the two-statement
string `"SELECT 1; DROP TABLE t"` as executable, although it is not a
single read-only statement. -/
theorem safety_gate_counterexample :
    is_executable_select ("SELECT 1; DROP TABLE t".toList) = true
    ∧ specSingleReadOnly ("SELECT 1; DROP TABLE t".toList) = false := by
  decide

/-- C2 (amended): the gate classifies a statement as executable if and only
if, after trimming leading whitespace, it starts case-insensitively with
`SELECT`; it does not check for further statements.  The claim's six
examples are classified as stated. -/
theorem safety_gate_amended :
    (∀ s : PyStr, is_executable_select s = true ↔
        select_token <+: pyLower (pyLStrip s))
    ∧ is_executable_select ("SELECT 1".toList) = true
    ∧ is_executable_select (" select * from t".toList) = true
    ∧ is_executable_select ("  \tSELECT x".toList) = true
    ∧ is_executable_select ("DROP TABLE t".toList) = false
    ∧ is_executable_select ("UPDATE t SET x=1".toList) = false
    ∧ is_executable_select ("insert into t values (1)".toList) = false := by
  refine ⟨?_, by decide, by decide, by decide, by decide, by decide, by decide⟩
  intro s
  rw [is_executable_select, pyStartsWith]
  rw [ List.isPrefixOf_iff_prefix]
  exact strip_lower_select_iff s

/-- C3 (code-bug exhibit): `_generate_sql_hf` does not turn every malformed
2xx payload into a fatal error.  A JSON object without `generated_text`
(such as the Hugging-Face `{"error": ...}` body) yields `Except.ok ""` —
silently returning empty SQL — and a list payload without `generated_text`
yields a successful result carrying the stringified raw payload. -/
theorem generate_sql_hf_silent_fallback :
    generate_sql_hf 200 (some (HfJson.obj [("error", "model loading".toList)]))
      = Except.ok []
    ∧ (generate_sql_hf 200
        (some (HfJson.arr [[("foo", "bar".toList)]]))).isOk = true := by
  constructor
  · rfl
  · rfl

/-- C7: the fence-stripping post-processing is idempotent on text that
contains no fence marker. -/
theorem postprocess_sql_idempotent (t : PyStr) (hf : ¬ (fence <:+: t)) :
    postprocess_sql (postprocess_sql t) = postprocess_sql t := by
  have hf2 : ¬ (fence <:+: pyStrip t) := fun h => hf (h.trans (pyStrip_isInfix t))
  rw [postprocess_eq_strip_of_no_fence hf,
    postprocess_eq_strip_of_no_fence hf2, pyStrip_idem]

/-- C7 witness: a concrete fence-free text. -/
theorem postprocess_sql_idempotent_witness :
    ¬ (fence <:+: (" SELECT 1 ".toList))
    ∧ postprocess_sql (postprocess_sql (" SELECT 1 ".toList))
        = postprocess_sql (" SELECT 1 ".toList) :=
  ⟨by decide, postprocess_sql_idempotent (" SELECT 1 ".toList) (by decide)⟩

/-- C9: for every input, `_postprocess_sql` returns text with no
triple-backtick fence marker and no leading or trailing whitespace, and the
empty input yields the empty string. -/
theorem postprocess_sql_output_clean (t : PyStr) :
    ¬ (fence <:+: postprocess_sql t)
    ∧ (postprocess_sql t).head?.all (fun c => ! pyIsSpace c) = true
    ∧ (postprocess_sql t).getLast?.all (fun c => ! pyIsSpace c) = true
    ∧ postprocess_sql [] = [] := by
  refine ⟨postprocess_no_fence t, ?_, ?_, rfl⟩
  · cases hh : (postprocess_sql t).head? with
    | none => rfl
    | some c =>
      show (! pyIsSpace c) = true
      rw [postprocess_head hh]
      rfl
  · cases hh : (postprocess_sql t).getLast? with
    | none => rfl
    | some c =>
      show (! pyIsSpace c) = true
      rw [postprocess_getLast hh]
      rfl

/-- C9 witness: a concrete fenced input. -/
theorem postprocess_sql_output_clean_witness :
    ¬ (fence <:+: postprocess_sql ("```sql\nSELECT name FROM users\n```".toList)) :=
  (postprocess_sql_output_clean ("```sql\nSELECT name FROM users\n```".toList)).1

/-! ### Helper lemmas for the ranking claim -/

theorem l2sq_expand {K : Type} [LinearOrderedCommRing K] :
    ∀ {a b : List K}, a.length = b.length →
      l2sq a b = normSq a + normSq b - 2 * dot a b
  | [], [], _ => by simp [l2sq, normSq, dot]
  | x :: xs, y :: ys, h => by
    have ih := l2sq_expand (a := xs) (b := ys) (by simpa using h)
    simp only [l2sq, normSq, dot, List.zipWith_cons_cons, List.map_cons,
      List.sum_cons] at ih ⊢
    linear_combination ih
  | [], y :: ys, h => by simp at h
  | x :: xs, [], h => by simp at h

theorem hit_score_eq {K : Type} [LinearOrderedCommRing K] (qEmb : List K)
    (r : EmbRecord K) :
    (hit_of_record qEmb r).score = dot r.embedding qEmb := by
  simp only [hit_of_record, cos_distance_unit]
  ring

theorem l2sq_le_iff {K : Type} [LinearOrderedCommRing K] {q a b : List K}
    (ha : a.length = q.length) (hb : b.length = q.length)
    (hna : normSq a = 1) (hnb : normSq b = 1) :
    l2sq a q ≤ l2sq b q ↔ dot b q ≤ dot a q := by
  rw [l2sq_expand ha, l2sq_expand hb, hna, hnb]
  constructor <;> intro h <;> linarith

/-- C4: over unit-normalized embeddings of matching dimension, `search`
ranks all persisted records by the L2 metric, which is monotonically
inverse to the reported cosine score, and returns at most `k` hits in
descending score order. -/
theorem search_ranking {K : Type} [LinearOrderedCommRing K]
    (st : StoreState K) (qEmb : List K) (k : Nat)
    (hdim : ∀ r ∈ st.records, r.embedding.length = qEmb.length)
    (hunit : ∀ r ∈ st.records, normSq r.embedding = 1)
    (hq : normSq qEmb = 1) :
    (search st qEmb k).length ≤ k
    ∧ List.Sorted (fun h1 h2 : RetrievalHit K => h2.score ≤ h1.score)
        (search st qEmb k)
    ∧ (∀ r1 ∈ st.records, ∀ r2 ∈ st.records,
        (l2sq r1.embedding qEmb ≤ l2sq r2.embedding qEmb ↔
          (hit_of_record qEmb r2).score ≤ (hit_of_record qEmb r1).score)) := by
  have hsorted : List.Sorted
      (fun a b : EmbRecord K =>
        l2sq a.embedding qEmb ≤ l2sq b.embedding qEmb)
      (st.records.insertionSort
        (fun r1 r2 => l2sq r1.embedding qEmb ≤ l2sq r2.embedding qEmb)) :=
    @List.sorted_insertionSort (EmbRecord K)
      (fun r1 r2 => l2sq r1.embedding qEmb ≤ l2sq r2.embedding qEmb) _
      ⟨fun a b => le_total _ _⟩ ⟨fun a b c hab hbc => le_trans hab hbc⟩
      st.records
  have hmem : ∀ x ∈ (st.records.insertionSort
      (fun r1 r2 => l2sq r1.embedding qEmb ≤ l2sq r2.embedding qEmb)).take k,
      x ∈ st.records := by
    intro x hx
    exact (List.perm_insertionSort _ st.records).subset
      ((List.take_sublist k _).subset hx)
  refine ⟨?_, ?_, ?_⟩
  · simp only [search, List.length_map]
    exact List.length_take_le _ _
  · have htake := List.Pairwise.sublist (List.take_sublist k _) hsorted
    have hpair : List.Pairwise
        (fun a b : EmbRecord K =>
          (hit_of_record qEmb b).score ≤ (hit_of_record qEmb a).score)
        ((st.records.insertionSort
          (fun r1 r2 =>
            l2sq r1.embedding qEmb ≤ l2sq r2.embedding qEmb)).take k) := by
      refine List.Pairwise.imp_of_mem ?_ htake
      intro a b ha hb hab
      rw [hit_score_eq, hit_score_eq]
      exact (l2sq_le_iff (hdim a (hmem a ha)) (hdim b (hmem b hb))
        (hunit a (hmem a ha)) (hunit b (hmem b hb))).1 hab
    have hmap := List.Pairwise.map
      (S := fun h1 h2 : RetrievalHit K => h2.score ≤ h1.score)
      (hit_of_record qEmb) (fun a b hab => hab) hpair
    simpa [search, List.Sorted] using hmap
  · intro r1 h1 r2 h2
    rw [hit_score_eq, hit_score_eq]
    exact l2sq_le_iff (hdim r1 h1) (hdim r2 h2) (hunit r1 h1) (hunit r2 h2)

/-- A three-record store of unit vectors over `ℤ`. -/
def exampleStore : StoreState ℤ :=
  ⟨[{ id := 1, source := "s1", chunk := "c1",
      metadata := { kind := ChunkKind.table, schema := "p",
                    table := "t", column := none },
      embedding := [1, 0] },
    { id := 2, source := "s2", chunk := "c2",
      metadata := { kind := ChunkKind.table, schema := "p",
                    table := "t", column := none },
      embedding := [0, 1] },
    { id := 3, source := "s3", chunk := "c3",
      metadata := { kind := ChunkKind.table, schema := "p",
                    table := "t", column := none },
      embedding := [-1, 0] }], 4⟩

/-- C4 witness: the ranking property evaluated on three concrete unit
vectors. -/
theorem search_ranking_witness :
    (search (K := ℤ) exampleStore [1, 0] 2).length ≤ 2
    ∧ List.Sorted (fun h1 h2 : RetrievalHit ℤ => h2.score ≤ h1.score)
        (search (K := ℤ) exampleStore [1, 0] 2) := by
  have h := search_ranking (K := ℤ) exampleStore [1, 0] 2
    (by decide) (by decide) (by decide)
  exact ⟨h.1, h.2.1⟩

end TextToSQL
